import Mathlib

/-!
Verification of the rate-limiting core of the `file-meta-api` repository.

The Go source is embedded shallowly:

* `src/middleware/ratelimit.go` — the in-memory (local) token-bucket
  middleware `RateLimit` and the background reaper
  `cleanupExpiredClients`.
* `src/unnamed/part_001` — the distributed middleware `RedisRateLimit`
  backed by a Redis store.
* `src/main.go` and `src/unnamed/part_010` — the startup selection of the
  limiter backend.

Go `int`/`int64` values are modelled as `Int` (the counters stay far from
any overflow boundary in every claim considered), `time.Time` and
`time.Duration` as `Int` instants/durations on one common clock, and
fallible Redis commands as inductive response types supplied as inputs.
-/

namespace FileMeta

/-- The two configuration fields of `config.Config` used by the limiter:
`RateLimitRequests` (the per-window budget) and `RateLimitWindow`
(the window duration). -/
structure Config where
  rateLimitRequests : Int
  rateLimitWindow : Int
  deriving DecidableEq, Repr

/-- The per-caller record `client` of `src/middleware/ratelimit.go`
(lines 13-17): the remaining token count and the instant of the last
refill.  The mutex field is not data and is represented by the fact that
the step function below is atomic. -/
structure Client where
  tokens : Int
  lastRefill : Int
  deriving DecidableEq, Repr

/-- The observable outcome of one pass through the local middleware
`RateLimit` (ratelimit.go lines 33-70): the three response header values
set on lines 58-60, whether the request was passed through (line 69) or
rejected with 429 (line 64), and the per-caller record left behind. -/
structure LocalResult where
  allowed : Bool
  limitHdr : Int
  remainingHdr : Int
  resetHdr : Int
  client : Client
  deriving DecidableEq, Repr

/-- One atomic execution of the local middleware body
(`RateLimit`, ratelimit.go lines 33-70) for a single caller at instant
`now`.  `c0 = none` means the caller was absent from the `clients` map, in
which case a fresh record with `tokens = RateLimitRequests` and
`lastRefill = now` is inserted (lines 39-45).  Then, under the per-client
lock: refill when `now - lastRefill > window` (lines 52-55), set the three
headers from the *pre-decrement* state (lines 58-60), deny when
`tokens <= 0` (lines 62-66), otherwise decrement and pass through
(lines 68-69). -/
def RateLimit (cfg : Config) (now : Int) (c0 : Option Client) : LocalResult :=
  let c1 : Client :=
    match c0 with
    | none => { tokens := cfg.rateLimitRequests, lastRefill := now }
    | some c => c
  let c2 : Client :=
    if now - c1.lastRefill > cfg.rateLimitWindow then
      { tokens := cfg.rateLimitRequests, lastRefill := now }
    else c1
  let limitH := cfg.rateLimitRequests
  let remH := c2.tokens
  let resetH := c2.lastRefill + cfg.rateLimitWindow
  if c2.tokens ≤ 0 then
    { allowed := false, limitHdr := limitH, remainingHdr := remH,
      resetHdr := resetH, client := c2 }
  else
    { allowed := true, limitHdr := limitH, remainingHdr := remH,
      resetHdr := resetH, client := { tokens := c2.tokens - 1, lastRefill := c2.lastRefill } }

/-- `n` consecutive calls of the local middleware for one caller, all at
instant `now`, each call acting on the record left by the previous one;
returns the list of per-call outcomes. -/
def RateLimitRun (cfg : Config) (now : Int) : Nat → Option Client → List LocalResult
  | 0, _ => []
  | n + 1, c0 =>
    let r := RateLimit cfg now c0
    r :: RateLimitRun cfg now n (some r.client)

/-- The per-caller record left after `n` consecutive calls at instant `now`. -/
def RateLimitRunState (cfg : Config) (now : Int) : Nat → Option Client → Option Client
  | 0, c0 => c0
  | n + 1, c0 => RateLimitRunState cfg now n (some (RateLimit cfg now c0).client)

/-- A sequence of calls at arbitrary instants, returning the final record. -/
def RateLimitStates (cfg : Config) (c : Client) : List Int → Client
  | [] => c
  | t :: ts => RateLimitStates cfg (RateLimit cfg t (some c)).client ts

/-- The local-mode invariant claimed by the spec:
`0 ≤ tokensRemaining ≤ limit`. -/
def LocalInv (limit : Int) (c : Client) : Prop :=
  0 ≤ c.tokens ∧ c.tokens ≤ limit

/- ### Step lemmas for the local limiter -/

/-- A call inside the current window (no refill) on a positive token count:
allowed, headers report the pre-decrement count, token count decremented. -/
theorem RateLimit_inWindow_pos (L w now t : Int) (hw : 0 < w) (ht : 0 < t) :
    RateLimit ⟨L, w⟩ now (some ⟨t, now⟩) =
      { allowed := true, limitHdr := L, remainingHdr := t, resetHdr := now + w,
        client := { tokens := t - 1, lastRefill := now } } := by
  unfold RateLimit
  dsimp only
  split_ifs with h1 h2 h3 <;> first | rfl | (exfalso; simp_all <;> omega)

/-- A call inside the current window (no refill) on an exhausted token
count: denied, remaining header reports the stored count. -/
theorem RateLimit_inWindow_zero (L w now : Int) (hw : 0 < w) :
    RateLimit ⟨L, w⟩ now (some ⟨0, now⟩) =
      { allowed := false, limitHdr := L, remainingHdr := 0, resetHdr := now + w,
        client := { tokens := 0, lastRefill := now } } := by
  unfold RateLimit
  dsimp only
  split_ifs with h1 h2 h3 <;> first | rfl | (exfalso; simp_all <;> omega)

/-- A call on an absent caller behaves exactly like a call on a freshly
inserted full record. -/
theorem RateLimit_none (cfg : Config) (now : Int) :
    RateLimit cfg now none =
      RateLimit cfg now (some ⟨cfg.rateLimitRequests, now⟩) := rfl

/-- Per-call closed form of an in-window run on a record holding `t ≥ n`
tokens: call `k` (0-indexed) is allowed with remaining header `t - k`. -/
theorem RateLimitRun_get (L w now : Int) (hw : 0 < w) :
    ∀ (n : Nat) (t : Int), (n : Int) ≤ t → ∀ k < n,
      (RateLimitRun ⟨L, w⟩ now n (some ⟨t, now⟩)).get? k =
        some { allowed := true, limitHdr := L, remainingHdr := t - k, resetHdr := now + w,
               client := { tokens := t - k - 1, lastRefill := now } } := by
  intro n
  induction n with
  | zero => intro t _ k hk; omega
  | succ m ih =>
    intro t ht k hk
    have ht0 : 0 < t := by omega
    unfold RateLimitRun
    rw [RateLimit_inWindow_pos L w now t hw ht0]
    match k with
    | 0 => simp
    | k' + 1 =>
      have hrec := ih (t - 1) (by omega) k' (by omega)
      have hcast : t - 1 - (k' : Int) = t - ((k' + 1 : Nat) : Int) := by push_cast; ring
      simp only [List.get?_cons_succ]
      rw [hrec, hcast]

/-- Every outcome of an in-window run on `t ≥ n` tokens is an admission. -/
theorem RateLimitRun_allowed (L w now : Int) (hw : 0 < w) :
    ∀ (n : Nat) (t : Int), (n : Int) ≤ t →
      ∀ r ∈ RateLimitRun ⟨L, w⟩ now n (some ⟨t, now⟩), r.allowed = true := by
  intro n
  induction n with
  | zero => intro t _ r hr; simp [RateLimitRun] at hr
  | succ m ih =>
    intro t ht r hr
    have ht0 : 0 < t := by omega
    unfold RateLimitRun at hr
    rw [RateLimit_inWindow_pos L w now t hw ht0] at hr
    rcases List.mem_cons.mp hr with h | h
    · rw [h]
    · exact ih (t - 1) (by omega) r h

/-- The length of a run is the number of calls. -/
theorem RateLimitRun_length (cfg : Config) (now : Int) :
    ∀ (n : Nat) (c0 : Option Client), (RateLimitRun cfg now n c0).length = n := by
  intro n
  induction n with
  | zero => intro c0; rfl
  | succ m ih => intro c0; unfold RateLimitRun; simp [ih]

/-- Closed form of the record after an in-window run: `n` calls on `t ≥ n`
tokens leave `t - n` tokens and an unchanged refill instant. -/
theorem RateLimitRunState_inWindow (L w now : Int) (hw : 0 < w) :
    ∀ (n : Nat) (t : Int), (n : Int) ≤ t →
      RateLimitRunState ⟨L, w⟩ now n (some ⟨t, now⟩) = some ⟨t - n, now⟩ := by
  intro n
  induction n with
  | zero => intro t _; simp [RateLimitRunState]
  | succ m ih =>
    intro t ht
    have ht0 : 0 < t := by omega
    unfold RateLimitRunState
    rw [RateLimit_inWindow_pos L w now t hw ht0]
    rw [ih (t - 1) (by omega)]
    have hcast : t - 1 - (m : Int) = t - ((m + 1 : Nat) : Int) := by push_cast; ring
    rw [hcast]

/-- One local call preserves the token-count invariant, for any instant. -/
theorem RateLimit_inv (L w now : Int) (hL : 0 < L) (c : Client) (h : LocalInv L c) :
    LocalInv L (RateLimit ⟨L, w⟩ now (some c)).client := by
  obtain ⟨tk, lr⟩ := c
  obtain ⟨h0, h1⟩ := h
  simp only [LocalInv] at h0 h1 ⊢
  unfold RateLimit
  dsimp only
  split_ifs with hr hz hz <;> dsimp only <;> constructor <;> simp_all <;> omega

/-- The record inserted and then acted on by the first call of an unseen
caller holds `limit - 1` tokens (creation at full budget, one decrement). -/
theorem RateLimit_creation_client (L w now : Int) (hL : 0 < L) :
    (RateLimit ⟨L, w⟩ now none).client = ⟨L - 1, now⟩ := by
  unfold RateLimit
  dsimp only
  split_ifs with hr hz hz <;> first | rfl | (exfalso; simp_all <;> omega)

/-- Any sequence of local calls preserves the token-count invariant. -/
theorem RateLimitStates_inv (L w : Int) (hL : 0 < L) :
    ∀ (ts : List Int) (c : Client), LocalInv L c →
      LocalInv L (RateLimitStates ⟨L, w⟩ c ts) := by
  intro ts
  induction ts with
  | nil => intro c h; exact h
  | cons t ts ih =>
    intro c h
    exact ih _ (RateLimit_inv L w t hL c h)

/- ### Claims about the local limiter -/

/-- C1, counterexample to the claim as stated.  With `limit = 1` and a
single in-window call (`N = 1`) from a fresh caller, the claim predicts a
reported remaining of `limit - N = 0` (the post-decrement count); the code
reports the pre-decrement count `1`. -/
theorem local_first_call_reports_predecrement :
    (RateLimit ⟨1, 100⟩ 0 none).allowed = true ∧
    (RateLimit ⟨1, 100⟩ 0 none).remainingHdr ≠ 1 - 1 := by decide

/-- C1 (amended): in local mode, every one of `N ≤ limit` in-window calls
from a fresh caller is allowed, and the reported remaining value equals
`tokensRemaining` *before* the decrement performed by that call, strictly
decreasing by 1 each call from `limit` down to `limit - N + 1`; a call that
finds `tokensRemaining = 0` (the only non-positive count a local record can
reach) is denied with remaining reported as 0. -/
theorem local_run_admits_and_reports_predecrement (L w now : Int) (N k : Nat)
    (hL : 0 < L) (hw : 0 < w) (hN : (N : Int) ≤ L) (hk : k < N) :
    (RateLimitRun ⟨L, w⟩ now N none).get? k =
      some { allowed := true, limitHdr := L, remainingHdr := L - k, resetHdr := now + w,
             client := { tokens := L - k - 1, lastRefill := now } } ∧
    RateLimit ⟨L, w⟩ now (some ⟨0, now⟩) =
      { allowed := false, limitHdr := L, remainingHdr := 0, resetHdr := now + w,
        client := { tokens := 0, lastRefill := now } } := by
  constructor
  · have hnone : RateLimitRun ⟨L, w⟩ now N none =
        RateLimitRun ⟨L, w⟩ now N (some ⟨L, now⟩) := by
      cases N <;> rfl
    rw [hnone]
    exact RateLimitRun_get L w now hw N L hN k hk
  · exact RateLimit_inWindow_zero L w now hw

/-- C1, witness: the amended statement evaluated at
`limit = 3, window = 5, now = 0, N = 2, k = 1`. -/
theorem local_run_admits_and_reports_predecrement_witness :
    (RateLimitRun ⟨3, 5⟩ 0 2 none).get? 1 =
      some { allowed := true, limitHdr := 3, remainingHdr := 2, resetHdr := 5,
             client := { tokens := 1, lastRefill := 0 } } ∧
    RateLimit ⟨3, 5⟩ 0 (some ⟨0, 0⟩) =
      { allowed := false, limitHdr := 3, remainingHdr := 0, resetHdr := 5,
        client := { tokens := 0, lastRefill := 0 } } := by
  have h := local_run_admits_and_reports_predecrement 3 5 0 2 1
    (by norm_num) (by norm_num) (by norm_num) (by norm_num)
  simpa using h

/-- C5: in local mode with `limit > 0`, after the creating call of a fresh
caller and any further sequence of calls at arbitrary instants, the
invariant `0 ≤ tokensRemaining ≤ limit` holds for the caller's record. -/
theorem local_tokens_invariant (L w t0 : Int) (ts : List Int) (hL : 0 < L) :
    LocalInv L (RateLimitStates ⟨L, w⟩ (RateLimit ⟨L, w⟩ t0 none).client ts) := by
  apply RateLimitStates_inv L w hL
  rw [RateLimit_creation_client L w t0 hL]
  constructor <;> simp <;> omega

/-- C5, witness: the invariant evaluated after a concrete call sequence at
`limit = 2, window = 10`, calls at instants 0, 1, 2, 25. -/
theorem local_tokens_invariant_witness :
    LocalInv 2 (RateLimitStates ⟨2, 10⟩ (RateLimit ⟨2, 10⟩ 0 none).client [1, 2, 25]) := by
  have h := local_tokens_invariant 2 10 0 [1, 2, 25] (by norm_num)
  exact h

/-- C6, counterexample to the claim as stated.  With `limit = 2`,
`window = 10`, a record last refilled at 0 holding 0 tokens and a call at
instant 11 (so `now - windowStart > window`), the claim predicts a reported
remaining of `limit - 1 = 1`; the code refills and then reports the
pre-decrement count `2`. -/
theorem local_refill_remaining_counterexample :
    (RateLimit ⟨2, 10⟩ 11 (some ⟨0, 0⟩)).allowed = true ∧
    (RateLimit ⟨2, 10⟩ 11 (some ⟨0, 0⟩)).remainingHdr ≠ 2 - 1 := by decide

/-- C6 (amended): in local mode, a call at instant `now` with
`now - windowStart > window` first sets `tokensRemaining = limit` and
`windowStart = now` (full refill, never proportional), computes
`resetAt = windowStart + window = now + window`, and this first
post-refill call is allowed with reported remaining equal to `limit` (the
pre-decrement header) and `limit - 1` tokens left in the record. -/
theorem local_refill_full_and_admits (L w now tk lr : Int)
    (hL : 0 < L) (hrefill : now - lr > w) :
    RateLimit ⟨L, w⟩ now (some ⟨tk, lr⟩) =
      { allowed := true, limitHdr := L, remainingHdr := L, resetHdr := now + w,
        client := { tokens := L - 1, lastRefill := now } } := by
  unfold RateLimit
  dsimp only
  split_ifs with hr hz hz <;> first | rfl | (exfalso; simp_all <;> omega)

/-- C6, witness: the amended refill statement evaluated at
`limit = 2, window = 10, now = 11` on a record `⟨0, 0⟩`. -/
theorem local_refill_full_and_admits_witness :
    RateLimit ⟨2, 10⟩ 11 (some ⟨0, 0⟩) =
      { allowed := true, limitHdr := 2, remainingHdr := 2, resetHdr := 21,
        client := { tokens := 1, lastRefill := 11 } } := by
  have h := local_refill_full_and_admits 2 10 11 0 0 (by norm_num) (by norm_num)
  simpa using h

/-- C9: with `limit = 10` and ten concurrent same-caller calls at one
instant — each call's check-then-decrement being one atomic step under the
per-client lock, so that every interleaving is some sequential order of the
ten identical steps — all ten are admitted, none denied, the record ends at
exactly 0 tokens, and no two calls observe the same pre-decrement token
count (the observed counts, which are the reported remaining headers,
are pairwise distinct). -/
theorem local_ten_concurrent_calls_all_admitted (w now : Int) (hw : 0 < w) :
    (RateLimitRun ⟨10, w⟩ now 10 none).length = 10 ∧
    (∀ r ∈ RateLimitRun ⟨10, w⟩ now 10 none, r.allowed = true) ∧
    RateLimitRunState ⟨10, w⟩ now 10 none = some ⟨0, now⟩ ∧
    (∀ i j : Nat, i < 10 → j < 10 → i ≠ j →
      ((RateLimitRun ⟨10, w⟩ now 10 none).get? i).map LocalResult.remainingHdr ≠
      ((RateLimitRun ⟨10, w⟩ now 10 none).get? j).map LocalResult.remainingHdr) := by
  have hnone : RateLimitRun ⟨10, w⟩ now 10 none =
      RateLimitRun ⟨10, w⟩ now 10 (some ⟨10, now⟩) := rfl
  have hst : RateLimitRunState ⟨10, w⟩ now 10 none =
      RateLimitRunState ⟨10, w⟩ now 10 (some ⟨10, now⟩) := rfl
  refine ⟨?_, ?_, ?_, ?_⟩
  · rw [hnone]; exact RateLimitRun_length _ now 10 _
  · rw [hnone]; exact RateLimitRun_allowed 10 w now hw 10 10 (by norm_num)
  · rw [hst, RateLimitRunState_inWindow 10 w now hw 10 10 (by norm_num)]
    norm_num
  · intro i j hi hj hij
    rw [hnone,
      RateLimitRun_get 10 w now hw 10 10 (by norm_num) i hi,
      RateLimitRun_get 10 w now hw 10 10 (by norm_num) j hj]
    simp only [Option.map_some']
    intro hcontra
    have : (10 : Int) - i = 10 - j := by simpa using hcontra
    omega

/-- C9, witness: the concurrent-burst statement evaluated at
`window = 100, now = 0`. -/
theorem local_ten_concurrent_calls_all_admitted_witness :
    (RateLimitRun ⟨10, 100⟩ 0 10 none).length = 10 ∧
    (∀ r ∈ RateLimitRun ⟨10, 100⟩ 0 10 none, r.allowed = true) ∧
    RateLimitRunState ⟨10, 100⟩ 0 10 none = some ⟨0, 0⟩ ∧
    (∀ i j : Nat, i < 10 → j < 10 → i ≠ j →
      ((RateLimitRun ⟨10, 100⟩ 0 10 none).get? i).map LocalResult.remainingHdr ≠
      ((RateLimitRun ⟨10, 100⟩ 0 10 none).get? j).map LocalResult.remainingHdr) :=
  local_ten_concurrent_calls_all_admitted 100 0 (by norm_num)

/- ### The distributed limiter (`RedisRateLimit`, src/unnamed/part_001) -/

/-- Response of the Redis `Get` on the counter key, as observed by
`RedisRateLimit` (part_001 lines 27-28): the key may be missing
(`redis.Nil`), the command may fail with some other error, or a stored
integer is returned. -/
inductive GetRes where
  | keyMissing : GetRes
  | err : GetRes
  | ok : Int → GetRes
  deriving DecidableEq, Repr

/-- Response of the initializing Redis `Set` (part_001 line 31). -/
inductive SetRes where
  | err : SetRes
  | ok : SetRes
  deriving DecidableEq, Repr

/-- Response of the Redis `TTL` lookup (part_001 line 46). -/
inductive TTLRes where
  | err : TTLRes
  | ok : Int → TTLRes
  deriving DecidableEq, Repr

/-- Response of the Redis `Decr` (part_001 line 67). -/
inductive DecrRes where
  | err : DecrRes
  | ok : Int → DecrRes
  deriving DecidableEq, Repr

/-- The store's responses to the (at most) four commands one pass of
`RedisRateLimit` can issue, supplied as an input to the embedding: the
middleware's behaviour is a pure function of them. -/
structure StoreBehavior where
  get : GetRes
  set : SetRes
  ttl : TTLRes
  decr : DecrRes
  deriving DecidableEq, Repr

/-- The three rate-limit response header values. -/
structure Headers where
  limitHdr : Int
  remainingHdr : Int
  resetHdr : Int
  deriving DecidableEq, Repr

/-- The observable outcome of one pass through `RedisRateLimit`:
whether the request was passed through to the next handler (`allowed`,
part_001 lines 35, 41, 71, 80) or rejected with 429 (line 62); the headers
if execution reached lines 55-57 (`none` when a fail-open return happened
before them); and whether a `Decr` command was issued (line 67). -/
structure DistResult where
  allowed : Bool
  headers : Option Headers
  decrIssued : Bool
  deriving DecidableEq, Repr

/-- TTL fallback of `RedisRateLimit` (part_001 lines 46-50): a failed TTL
lookup is replaced by the configured window. -/
def ttlOrWindow (cfg : Config) (r : TTLRes) : Int :=
  match r with
  | TTLRes.err => cfg.rateLimitWindow
  | TTLRes.ok t => t

/-- Tail of `RedisRateLimit` from the TTL lookup on (part_001 lines
46-81), parametric in the token count read (or installed) for this
request: compute `ttl` with fallback `window` on error (lines 47-50),
`resetTime = now + ttl` (line 52), set the three headers with
`remaining = max(0, tokens-1)` (lines 55-57), reject with 429 when
`tokens <= 0` (lines 60-64), otherwise issue `Decr` and pass through even
if it errors (lines 67-73, 80). -/
def redisRateLimitTail (cfg : Config) (now : Int) (tokens : Int)
    (st : StoreBehavior) : DistResult :=
  let ttl := ttlOrWindow cfg st.ttl
  let resetTime := now + ttl
  let h : Headers :=
    { limitHdr := cfg.rateLimitRequests,
      remainingHdr := max 0 (tokens - 1),
      resetHdr := resetTime }
  if tokens ≤ 0 then
    { allowed := false, headers := some h, decrIssued := false }
  else
    match st.decr with
    | DecrRes.err => { allowed := true, headers := some h, decrIssued := true }
    | DecrRes.ok _ => { allowed := true, headers := some h, decrIssued := true }

/-- One pass through the distributed middleware body (`RedisRateLimit`,
part_001 lines 18-81) at instant `now`, given the store's responses.
A `Get` error other than key-missing admits the request with no headers
set (lines 38-43); a missing key is initialized to `RateLimitRequests`,
and a failing `Set` likewise admits with no headers (lines 28-37);
otherwise execution continues with the read (or installed) token count. -/
def RedisRateLimit (cfg : Config) (now : Int) (st : StoreBehavior) : DistResult :=
  match st.get with
  | GetRes.err => { allowed := true, headers := none, decrIssued := false }
  | GetRes.keyMissing =>
    match st.set with
    | SetRes.err => { allowed := true, headers := none, decrIssued := false }
    | SetRes.ok => redisRateLimitTail cfg now cfg.rateLimitRequests st
  | GetRes.ok v => redisRateLimitTail cfg now v st

/- ### Path lemmas for the distributed limiter -/

/-- The denial path of the tail: a non-positive token count rejects,
issues no decrement, and reports `max 0 (tokens - 1)` remaining. -/
theorem redisRateLimitTail_deny (cfg : Config) (now tokens : Int)
    (st : StoreBehavior) (h : tokens ≤ 0) :
    redisRateLimitTail cfg now tokens st =
      { allowed := false,
        headers := some ⟨cfg.rateLimitRequests, max 0 (tokens - 1),
          now + ttlOrWindow cfg st.ttl⟩,
        decrIssued := false } := by
  unfold redisRateLimitTail
  dsimp only
  rw [if_pos h]

/-- The admission path of the tail: a positive token count passes through
with headers set and a decrement issued, whatever the decrement's
outcome. -/
theorem redisRateLimitTail_allow (cfg : Config) (now tokens : Int)
    (st : StoreBehavior) (h : 0 < tokens) :
    redisRateLimitTail cfg now tokens st =
      { allowed := true,
        headers := some ⟨cfg.rateLimitRequests, max 0 (tokens - 1),
          now + ttlOrWindow cfg st.ttl⟩,
        decrIssued := true } := by
  unfold redisRateLimitTail
  dsimp only
  rw [if_neg (by omega)]
  cases hd : st.decr <;> rfl

/-- Whenever the tail runs, the headers are set, with a remaining of
`max 0 (tokens - 1)`. -/
theorem redisRateLimitTail_headers_eq (cfg : Config) (now tokens : Int)
    (st : StoreBehavior) :
    (redisRateLimitTail cfg now tokens st).headers =
      some ⟨cfg.rateLimitRequests, max 0 (tokens - 1),
        now + ttlOrWindow cfg st.ttl⟩ := by
  by_cases h : tokens ≤ 0
  · rw [redisRateLimitTail_deny cfg now tokens st h]
  · rw [redisRateLimitTail_allow cfg now tokens st (by omega)]

/-- A counter-read error takes the early fail-open return. -/
theorem RedisRateLimit_get_err (cfg : Config) (now : Int) (st : StoreBehavior)
    (h : st.get = GetRes.err) :
    RedisRateLimit cfg now st =
      { allowed := true, headers := none, decrIssued := false } := by
  unfold RedisRateLimit
  rw [h]

/-- A missing key whose initialization fails takes the early fail-open
return. -/
theorem RedisRateLimit_init_err (cfg : Config) (now : Int) (st : StoreBehavior)
    (h1 : st.get = GetRes.keyMissing) (h2 : st.set = SetRes.err) :
    RedisRateLimit cfg now st =
      { allowed := true, headers := none, decrIssued := false } := by
  unfold RedisRateLimit
  rw [h1, h2]

/-- A missing key whose initialization succeeds continues with the full
budget as the token count. -/
theorem RedisRateLimit_init_ok (cfg : Config) (now : Int) (st : StoreBehavior)
    (h1 : st.get = GetRes.keyMissing) (h2 : st.set = SetRes.ok) :
    RedisRateLimit cfg now st =
      redisRateLimitTail cfg now cfg.rateLimitRequests st := by
  unfold RedisRateLimit
  rw [h1, h2]

/-- A successful counter read continues with the stored value. -/
theorem RedisRateLimit_get_ok (cfg : Config) (now : Int) (st : StoreBehavior)
    (v : Int) (h : st.get = GetRes.ok v) :
    RedisRateLimit cfg now st = redisRateLimitTail cfg now v st := by
  unfold RedisRateLimit
  rw [h]

/-- Any headers ever produced by the distributed limiter report a
non-negative remaining. -/
theorem RedisRateLimit_headers_nonneg (cfg : Config) (now : Int)
    (st : StoreBehavior) (h : Headers)
    (hh : (RedisRateLimit cfg now st).headers = some h) : 0 ≤ h.remainingHdr := by
  cases hg : st.get with
  | err =>
    rw [RedisRateLimit_get_err cfg now st hg] at hh
    simp at hh
  | keyMissing =>
    cases hs : st.set with
    | err =>
      rw [RedisRateLimit_init_err cfg now st hg hs] at hh
      simp at hh
    | ok =>
      rw [RedisRateLimit_init_ok cfg now st hg hs, redisRateLimitTail_headers_eq] at hh
      obtain rfl : h = _ := (Option.some.injEq _ _).mp hh.symm
      exact le_max_left 0 _
  | ok v =>
    rw [RedisRateLimit_get_ok cfg now st v hg, redisRateLimitTail_headers_eq] at hh
    obtain rfl : h = _ := (Option.some.injEq _ _).mp hh.symm
    exact le_max_left 0 _

/- ### Claims about the distributed limiter -/

/-- C3: in distributed mode, every store error admits the request — a
`Get` error other than key-missing, a failed initialization of a missing
key, and a failed decrement (whenever one is issued at all) each yield
`allowed = true` — and no store error surfaces as a failure: the only
non-admission is the budget-exceeded rejection, which carries headers with
a remaining of 0. -/
theorem distributed_store_errors_fail_open (cfg : Config) (now : Int) (st : StoreBehavior) :
    (st.get = GetRes.err → (RedisRateLimit cfg now st).allowed = true) ∧
    (st.get = GetRes.keyMissing → st.set = SetRes.err →
      (RedisRateLimit cfg now st).allowed = true) ∧
    ((RedisRateLimit cfg now st).decrIssued = true →
      (RedisRateLimit cfg now st).allowed = true) ∧
    ((RedisRateLimit cfg now st).allowed = false →
      ∃ h, (RedisRateLimit cfg now st).headers = some h ∧ h.remainingHdr = 0) := by
  have tail_cases : ∀ tokens : Int,
      ((redisRateLimitTail cfg now tokens st).decrIssued = true →
        (redisRateLimitTail cfg now tokens st).allowed = true) ∧
      ((redisRateLimitTail cfg now tokens st).allowed = false →
        ∃ h, (redisRateLimitTail cfg now tokens st).headers = some h ∧
          h.remainingHdr = 0) := by
    intro tokens
    by_cases ht : tokens ≤ 0
    · rw [redisRateLimitTail_deny cfg now tokens st ht]
      refine ⟨fun hcontra => by simp at hcontra, fun _ => ⟨_, rfl, ?_⟩⟩
      exact max_eq_left (by omega)
    · rw [redisRateLimitTail_allow cfg now tokens st (by omega)]
      exact ⟨fun _ => rfl, fun hcontra => by simp at hcontra⟩
  refine ⟨?_, ?_, ?_, ?_⟩
  · intro hg
    rw [RedisRateLimit_get_err cfg now st hg]
  · intro hg hs
    rw [RedisRateLimit_init_err cfg now st hg hs]
  · cases hg : st.get with
    | err => rw [RedisRateLimit_get_err cfg now st hg]; intro; rfl
    | keyMissing =>
      cases hs : st.set with
      | err => rw [RedisRateLimit_init_err cfg now st hg hs]; intro; rfl
      | ok =>
        rw [RedisRateLimit_init_ok cfg now st hg hs]
        exact (tail_cases cfg.rateLimitRequests).1
    | ok v =>
      rw [RedisRateLimit_get_ok cfg now st v hg]
      exact (tail_cases v).1
  · cases hg : st.get with
    | err =>
      rw [RedisRateLimit_get_err cfg now st hg]
      intro hcontra; simp at hcontra
    | keyMissing =>
      cases hs : st.set with
      | err =>
        rw [RedisRateLimit_init_err cfg now st hg hs]
        intro hcontra; simp at hcontra
      | ok =>
        rw [RedisRateLimit_init_ok cfg now st hg hs]
        exact (tail_cases cfg.rateLimitRequests).2
    | ok v =>
      rw [RedisRateLimit_get_ok cfg now st v hg]
      exact (tail_cases v).2

/-- C3, witness: fail-open and totality facts evaluated at concrete
store behaviours (`Get` error; missing key with failing `Set`; positive
read with failing `Decr`; non-positive read). -/
theorem distributed_store_errors_fail_open_witness :
    (RedisRateLimit ⟨5, 60⟩ 0 ⟨GetRes.err, SetRes.ok, TTLRes.ok 60, DecrRes.ok 4⟩).allowed
      = true ∧
    (RedisRateLimit ⟨5, 60⟩ 0
      ⟨GetRes.keyMissing, SetRes.err, TTLRes.ok 60, DecrRes.ok 4⟩).allowed = true ∧
    (RedisRateLimit ⟨5, 60⟩ 0 ⟨GetRes.ok 3, SetRes.ok, TTLRes.ok 60, DecrRes.err⟩).allowed
      = true ∧
    ∃ h, (RedisRateLimit ⟨5, 60⟩ 0
      ⟨GetRes.ok 0, SetRes.ok, TTLRes.ok 60, DecrRes.ok (-1)⟩).headers = some h ∧
      h.remainingHdr = 0 := by
  refine ⟨?_, ?_, ?_, ?_⟩
  · exact (distributed_store_errors_fail_open ⟨5, 60⟩ 0 _).1 rfl
  · exact (distributed_store_errors_fail_open ⟨5, 60⟩ 0 _).2.1 rfl rfl
  · exact (distributed_store_errors_fail_open ⟨5, 60⟩ 0 _).2.2.1 (by decide)
  · exact (distributed_store_errors_fail_open ⟨5, 60⟩ 0 _).2.2.2 (by decide)

/-- C4: in distributed mode, a request whose counter read yields
`currentValue ≤ 0` (including negative values) is denied, issues no
decrement, and reports `remaining = max(0, currentValue - 1) = 0`; and for
every store behaviour whatsoever, any reported remaining is
non-negative. -/
theorem distributed_nonpositive_read_denies (cfg : Config) (now : Int)
    (st : StoreBehavior) (v : Int) (hget : st.get = GetRes.ok v) (hv : v ≤ 0) :
    (RedisRateLimit cfg now st).allowed = false ∧
    (RedisRateLimit cfg now st).decrIssued = false ∧
    (∃ h, (RedisRateLimit cfg now st).headers = some h ∧
      h.remainingHdr = max 0 (v - 1) ∧ h.remainingHdr = 0) ∧
    (∀ (st2 : StoreBehavior) (h2 : Headers),
      (RedisRateLimit cfg now st2).headers = some h2 → 0 ≤ h2.remainingHdr) := by
  rw [RedisRateLimit_get_ok cfg now st v hget,
    redisRateLimitTail_deny cfg now v st hv]
  refine ⟨rfl, rfl, ⟨_, rfl, rfl, max_eq_left (by omega)⟩, ?_⟩
  intro st2 h2 hh
  exact RedisRateLimit_headers_nonneg cfg now st2 h2 hh

/-- C4, witness: the denial statement evaluated at a negative stored
counter value `-2` with `limit = 5`. -/
theorem distributed_nonpositive_read_denies_witness :
    (RedisRateLimit ⟨5, 60⟩ 0
      ⟨GetRes.ok (-2), SetRes.ok, TTLRes.ok 60, DecrRes.ok (-3)⟩).allowed = false ∧
    (RedisRateLimit ⟨5, 60⟩ 0
      ⟨GetRes.ok (-2), SetRes.ok, TTLRes.ok 60, DecrRes.ok (-3)⟩).decrIssued = false ∧
    (∃ h, (RedisRateLimit ⟨5, 60⟩ 0
        ⟨GetRes.ok (-2), SetRes.ok, TTLRes.ok 60, DecrRes.ok (-3)⟩).headers = some h ∧
      h.remainingHdr = max 0 (-2 - 1) ∧ h.remainingHdr = 0) ∧
    (∀ (st2 : StoreBehavior) (h2 : Headers),
      (RedisRateLimit ⟨5, 60⟩ 0 st2).headers = some h2 → 0 ≤ h2.remainingHdr) :=
  distributed_nonpositive_read_denies ⟨5, 60⟩ 0 _ (-2) rfl (by norm_num)

/-- C10: among fail-open admissions, header presence is not uniform.
A request admitted because the counter read errored, or because the
initialization of a missing key errored, carries no rate-limit headers;
a request admitted because the decrement errored (the read having
succeeded with a positive count, or the key having been freshly
initialized to a positive limit) carries all three. -/
theorem distributed_fail_open_header_asymmetry (cfg : Config) (now : Int)
    (st : StoreBehavior) :
    (st.get = GetRes.err →
      RedisRateLimit cfg now st =
        { allowed := true, headers := none, decrIssued := false }) ∧
    (st.get = GetRes.keyMissing → st.set = SetRes.err →
      RedisRateLimit cfg now st =
        { allowed := true, headers := none, decrIssued := false }) ∧
    (∀ v, st.get = GetRes.ok v → 0 < v → st.decr = DecrRes.err →
      (RedisRateLimit cfg now st).allowed = true ∧
      ((RedisRateLimit cfg now st).headers).isSome = true) ∧
    (st.get = GetRes.keyMissing → st.set = SetRes.ok →
      0 < cfg.rateLimitRequests → st.decr = DecrRes.err →
      (RedisRateLimit cfg now st).allowed = true ∧
      ((RedisRateLimit cfg now st).headers).isSome = true) := by
  refine ⟨?_, ?_, ?_, ?_⟩
  · exact RedisRateLimit_get_err cfg now st
  · exact RedisRateLimit_init_err cfg now st
  · intro v hg hv _
    rw [RedisRateLimit_get_ok cfg now st v hg,
      redisRateLimitTail_allow cfg now v st hv]
    exact ⟨rfl, rfl⟩
  · intro hg hs hL _
    rw [RedisRateLimit_init_ok cfg now st hg hs,
      redisRateLimitTail_allow cfg now cfg.rateLimitRequests st hL]
    exact ⟨rfl, rfl⟩

/-- C10, witness: both fail-open shapes evaluated concretely — a `Get`
error admission has no headers, a `Decr` error admission has headers. -/
theorem distributed_fail_open_header_asymmetry_witness :
    RedisRateLimit ⟨5, 60⟩ 0 ⟨GetRes.err, SetRes.ok, TTLRes.ok 60, DecrRes.ok 4⟩ =
      { allowed := true, headers := none, decrIssued := false } ∧
    (RedisRateLimit ⟨5, 60⟩ 0 ⟨GetRes.ok 3, SetRes.ok, TTLRes.ok 60, DecrRes.err⟩).allowed
      = true ∧
    ((RedisRateLimit ⟨5, 60⟩ 0
      ⟨GetRes.ok 3, SetRes.ok, TTLRes.ok 60, DecrRes.err⟩).headers).isSome = true := by
  refine ⟨?_, ?_, ?_⟩
  · exact (distributed_fail_open_header_asymmetry ⟨5, 60⟩ 0 _).1 rfl
  · exact ((distributed_fail_open_header_asymmetry ⟨5, 60⟩ 0 _).2.2.1 3 rfl
      (by norm_num) rfl).1
  · exact ((distributed_fail_open_header_asymmetry ⟨5, 60⟩ 0 _).2.2.1 3 rfl
      (by norm_num) rfl).2

/- ### The background reaper (`cleanupExpiredClients`, ratelimit.go lines 75-92) -/

/-- One pass of the reaper over the `clients` map (modelled as an
association list) at instant `now`: under the locks, every record with
`now - lastRefill > window * 3` is deleted (ratelimit.go lines 82-89);
all other records are kept. -/
def cleanupExpiredClients (window now : Int) (cs : List (String × Client)) :
    List (String × Client) :=
  cs.filter fun kc => ! decide (now - kc.2.lastRefill > window * 3)

/-- The fixed ticker interval of the reaper goroutine
(`time.NewTicker(window * 2)`, ratelimit.go line 76). -/
def reaperInterval (window : Int) : Int := window * 2

/-- C8: a reaper pass at instant `now` keeps exactly the entries with
`now - lastRefill ≤ 3 × window` — so an entry whose last refill was at `T`
and which was never touched again is removed by any pass with
`now - T > 3 × window` and kept by any pass with `now - T ≤ 3 × window` —
and reaper passes occur on a fixed interval of `2 × window`. -/
theorem reaper_removes_exactly_idle (window now : Int) (key : String)
    (c : Client) (cs : List (String × Client)) :
    ((key, c) ∈ cleanupExpiredClients window now cs ↔
      (key, c) ∈ cs ∧ now - c.lastRefill ≤ 3 * window) ∧
    reaperInterval window = 2 * window := by
  constructor
  · simp only [cleanupExpiredClients, List.mem_filter, Bool.not_eq_true',
      decide_eq_false_iff_not, not_lt]
    constructor
    · rintro ⟨h1, h2⟩
      exact ⟨h1, by omega⟩
    · rintro ⟨h1, h2⟩
      exact ⟨h1, by omega⟩
  · simp only [reaperInterval]
    ring

/-- C8, witness: one concrete pass with `window = 10` at `now = 100`
removes the entry refilled at 0 (idle for more than 30) and keeps the
entry refilled at 95. -/
theorem reaper_removes_exactly_idle_witness :
    ¬ (("idle", (⟨5, 0⟩ : Client)) ∈
        cleanupExpiredClients 10 100 [("idle", ⟨5, 0⟩), ("hot", ⟨5, 95⟩)]) ∧
    ("hot", (⟨5, 95⟩ : Client)) ∈
      cleanupExpiredClients 10 100 [("idle", ⟨5, 0⟩), ("hot", ⟨5, 95⟩)] ∧
    reaperInterval 10 = 2 * 10 := by
  refine ⟨?_, ?_, ?_⟩
  · intro hmem
    have h := (reaper_removes_exactly_idle 10 100 "idle" ⟨5, 0⟩
      [("idle", ⟨5, 0⟩), ("hot", ⟨5, 95⟩)]).1.mp hmem
    have : (100 : Int) - 0 ≤ 3 * 10 := h.2
    norm_num at this
  · exact (reaper_removes_exactly_idle 10 100 "hot" ⟨5, 95⟩
      [("idle", ⟨5, 0⟩), ("hot", ⟨5, 95⟩)]).1.mpr ⟨by simp, by norm_num⟩
  · exact (reaper_removes_exactly_idle 10 100 "hot" ⟨5, 95⟩ []).2

/- ### Backend selection at startup (src/main.go, src/unnamed/part_010) -/

/-- Which limiter middleware serves admission decisions. -/
inductive Backend where
  | localBackend : Backend
  | distributedBackend : Backend
  deriving DecidableEq, Repr

/-- The selection made once in `main` (src/main.go): a Redis client is
created when `RedisURL` or `RedisHost` is set (a URL that fails to parse
leaves the client nil); a created client is then probed with a 5-second
`Ping`, and on failure the client is set back to nil; finally
`RedisRateLimit` is chosen when the client is non-nil and `RateLimit`
otherwise.  The selection is computed once, before the server starts, and
the resulting middleware is installed for the process lifetime. -/
def mainSelect (urlSet hostSet parseOk pingOk : Bool) : Backend :=
  let clientCreated :=
    if urlSet || hostSet then
      (if urlSet then parseOk else true)
    else false
  let clientAlive := clientCreated && pingOk
  if clientAlive then Backend.distributedBackend else Backend.localBackend

/-- The selection made by the serverless `Handler`
(src/unnamed/part_010): `initialize` always constructs a Redis client and
merely logs a warning when the `Ping` probe fails (lines 54-61), and the
middleware chain always installs `RedisRateLimit` (lines 83-91) — the
probe's outcome does not influence the choice. -/
def handlerSelect (pingOk : Bool) : Backend := Backend.distributedBackend

/-- C7, counterexample to the claim as stated: in the serverless handler
entry point, a failed startup probe does *not* route admission decisions
to the local in-memory limiter. -/
theorem handler_probe_failure_not_local :
    handlerSelect false ≠ Backend.localBackend := by decide

/-- C7 (amended): in the `main` server entry point the claim holds — a
successful probe of a configured store selects the distributed limiter,
and a failed probe, a bad URL, or an absent store configuration selects
the local limiter, once, for the process lifetime; the serverless
`Handler` entry point, however, always installs the distributed limiter
middleware regardless of the probe's outcome. -/
theorem backend_selection (urlSet hostSet parseOk pingOk : Bool) :
    (mainSelect urlSet hostSet parseOk pingOk = Backend.distributedBackend ↔
      (((urlSet && parseOk) || (!urlSet && hostSet)) && pingOk) = true) ∧
    (pingOk = false →
      mainSelect urlSet hostSet parseOk pingOk = Backend.localBackend) ∧
    (urlSet = false → hostSet = false →
      mainSelect urlSet hostSet parseOk pingOk = Backend.localBackend) ∧
    handlerSelect pingOk = Backend.distributedBackend := by
  cases urlSet <;> cases hostSet <;> cases parseOk <;> cases pingOk <;> decide

/-- C7, witness: the amended selection statement evaluated concretely — a
failed probe yields the local backend in `main`, absent configuration
yields the local backend in `main`, a live configured store yields the
distributed backend in `main`, and the handler yields the distributed
backend even with a failed probe. -/
theorem backend_selection_witness :
    mainSelect true false true false = Backend.localBackend ∧
    mainSelect false false true true = Backend.localBackend ∧
    (mainSelect false true true true = Backend.distributedBackend ↔
      (((false && true) || (!false && true)) && true) = true) ∧
    handlerSelect false = Backend.distributedBackend := by
  refine ⟨?_, ?_, ?_, ?_⟩
  · exact (backend_selection true false true false).2.1 rfl
  · exact (backend_selection false false true true).2.2.1 rfl rfl
  · exact (backend_selection false true true true).1
  · exact (backend_selection false false true false).2.2.2

/- ### The distributed limiter against an error-free store (for C2) -/

/-- The shared store's entry for one caller in the ideal (error-free)
run: the stored counter value and the absolute instant at which its TTL
expires. -/
structure RClient where
  value : Int
  expiresAt : Int
  deriving DecidableEq, Repr

/-- The responses an error-free store gives to the commands of one
`RedisRateLimit` pass at instant `now`, given the caller's entry `s`:
`Get` returns the stored value, or key-missing when the entry is absent;
`Set` succeeds; `TTL`, read after a missing key was initialized with a
TTL of `window`, returns `window`, and otherwise returns
`expiresAt - now`; `Decr` returns one less than the value the counter
holds when it runs (`RateLimitRequests` freshly installed, or the stored
value). -/
def idealResponses (cfg : Config) (now : Int) (s : Option RClient) : StoreBehavior :=
  match s with
  | none =>
    { get := GetRes.keyMissing, set := SetRes.ok,
      ttl := TTLRes.ok cfg.rateLimitWindow,
      decr := DecrRes.ok (cfg.rateLimitRequests - 1) }
  | some rc =>
    { get := GetRes.ok rc.value, set := SetRes.ok,
      ttl := TTLRes.ok (rc.expiresAt - now),
      decr := DecrRes.ok (rc.value - 1) }

/-- The store entry after one `RedisRateLimit` pass at instant `now`
against the error-free store: a missing key is installed at
`RateLimitRequests` with expiry `now + window` (part_001 lines 29-31) and
then decremented when positive, with the expiry (re)applied when the
decrement lands on `RateLimitRequests - 1` (lines 67, 76-78); an existing
entry is left untouched on denial and decremented on admission, with the
same conditional expiry reapplication. -/
def idealStoreAfter (cfg : Config) (now : Int) (s : Option RClient) : Option RClient :=
  match s with
  | none =>
    let installed : RClient :=
      ⟨cfg.rateLimitRequests, now + cfg.rateLimitWindow⟩
    if installed.value ≤ 0 then some installed
    else some ⟨installed.value - 1,
      if installed.value - 1 = cfg.rateLimitRequests - 1 then
        now + cfg.rateLimitWindow
      else installed.expiresAt⟩
  | some rc =>
    if rc.value ≤ 0 then some rc
    else some ⟨rc.value - 1,
      if rc.value - 1 = cfg.rateLimitRequests - 1 then
        now + cfg.rateLimitWindow
      else rc.expiresAt⟩

/-- `n` consecutive passes of the distributed middleware for one caller
against the error-free store, all at instant `now`; returns the list of
per-pass outcomes. -/
def RedisRateLimitRun (cfg : Config) (now : Int) :
    Nat → Option RClient → List DistResult
  | 0, _ => []
  | n + 1, s =>
    RedisRateLimit cfg now (idealResponses cfg now s) ::
      RedisRateLimitRun cfg now n (idealStoreAfter cfg now s)

/-- One error-free pass on an existing entry holding `t > 0` tokens with
expiry `now + w`: admitted, headers `⟨L, t - 1, now + w⟩`, entry
decremented with expiry unchanged. -/
theorem RedisRateLimit_ideal_pos (L w now t : Int) (ht : 0 < t) :
    RedisRateLimit ⟨L, w⟩ now (idealResponses ⟨L, w⟩ now (some ⟨t, now + w⟩)) =
      { allowed := true, headers := some ⟨L, t - 1, now + w⟩, decrIssued := true } ∧
    idealStoreAfter ⟨L, w⟩ now (some ⟨t, now + w⟩) = some ⟨t - 1, now + w⟩ := by
  constructor
  · rw [RedisRateLimit_get_ok ⟨L, w⟩ now _ t rfl,
      redisRateLimitTail_allow ⟨L, w⟩ now t _ ht]
    have h1 : max 0 (t - 1) = t - 1 := max_eq_right (by omega)
    have h2 : now + ttlOrWindow ⟨L, w⟩ (idealResponses ⟨L, w⟩ now
        (some ⟨t, now + w⟩)).ttl = now + w := by
      simp only [idealResponses, ttlOrWindow]
      ring
    rw [h1, h2]
  · simp only [idealStoreAfter]
    rw [if_neg (by omega)]
    simp only [ite_self]

/-- Per-pass closed form of an error-free run on an entry holding `t ≥ n`
tokens with expiry `now + w`: pass `k` (0-indexed) is admitted with
headers `⟨L, t - k - 1, now + w⟩`. -/
theorem RedisRateLimitRun_get (L w now : Int) :
    ∀ (n : Nat) (t : Int), (n : Int) ≤ t → ∀ k < n,
      (RedisRateLimitRun ⟨L, w⟩ now n (some ⟨t, now + w⟩)).get? k =
        some { allowed := true, headers := some ⟨L, t - k - 1, now + w⟩,
               decrIssued := true } := by
  intro n
  induction n with
  | zero => intro t _ k hk; omega
  | succ m ih =>
    intro t ht k hk
    have ht0 : 0 < t := by omega
    obtain ⟨hstep, hstate⟩ := RedisRateLimit_ideal_pos L w now t ht0
    unfold RedisRateLimitRun
    rw [hstep, hstate]
    match k with
    | 0 => simp
    | k' + 1 =>
      have hrec := ih (t - 1) (by omega) k' (by omega)
      have hcast : t - 1 - (k' : Int) - 1 = t - ((k' + 1 : Nat) : Int) - 1 := by
        push_cast; ring
      simp only [List.get?_cons_succ]
      rw [hrec, hcast]

/-- The first error-free pass of a fresh caller: the key is installed at
the full budget and the pass behaves like a pass on an installed entry. -/
theorem RedisRateLimitRun_none (L w now : Int) (hL : 0 < L) (n : Nat) :
    RedisRateLimitRun ⟨L, w⟩ now (n + 1) none =
      { allowed := true, headers := some ⟨L, L - 1, now + w⟩, decrIssued := true } ::
        RedisRateLimitRun ⟨L, w⟩ now n (some ⟨L - 1, now + w⟩) := by
  have hhead : RedisRateLimit ⟨L, w⟩ now (idealResponses ⟨L, w⟩ now none) =
      { allowed := true, headers := some ⟨L, L - 1, now + w⟩, decrIssued := true } := by
    rw [RedisRateLimit_init_ok ⟨L, w⟩ now _ rfl rfl]
    rw [redisRateLimitTail_allow ⟨L, w⟩ now _ _ hL]
    have h1 : max 0 ((⟨L, w⟩ : Config).rateLimitRequests - 1) = L - 1 :=
      max_eq_right (by first | omega | (dsimp only; omega))
    have h2 : ttlOrWindow ⟨L, w⟩ (idealResponses ⟨L, w⟩ now none).ttl = w := rfl
    rw [h1, h2]
  have hstate : idealStoreAfter ⟨L, w⟩ now none = some ⟨L - 1, now + w⟩ := by
    simp only [idealStoreAfter]
    rw [if_neg (by first | omega | (dsimp only; omega))]
    simp
  have hunfold : RedisRateLimitRun ⟨L, w⟩ now (n + 1) none =
      RedisRateLimit ⟨L, w⟩ now (idealResponses ⟨L, w⟩ now none) ::
        RedisRateLimitRun ⟨L, w⟩ now n (idealStoreAfter ⟨L, w⟩ now none) := rfl
  rw [hunfold, hhead, hstate]

/- ### Claims comparing the two backends (C2) -/

/-- C2, counterexample to the claim as stated.  With the same
configuration `limit = 10, window = 100`, the same instant 0, and the same
fresh per-caller state, the first decision's emitted remaining is 10 from
the local backend (pre-decrement header) but 9 from the distributed
backend (`max(0, tokens-1)`): the four values do not match value for
value. -/
theorem local_distributed_values_differ :
    (RedisRateLimit ⟨10, 100⟩ 0 (idealResponses ⟨10, 100⟩ 0 none)).headers =
      some ⟨10, 9, 100⟩ ∧
    (RateLimit ⟨10, 100⟩ 0 none).remainingHdr ≠ 9 := by decide

/-- C2 (amended): for every caller, configuration (`limit > 0`,
`window > 0`) and in-window sequence of `N ≤ limit` decisions at one
instant, from fresh state and with an error-free store, the local and
distributed backends agree on the admission flag, the emitted limit and
the emitted reset, for every decision; the emitted remaining values do
not match — the local value exceeds the distributed one by exactly 1 on
every admitted decision — and agree (both 0) on a denied decision. -/
theorem local_distributed_emitted_values (L w now : Int) (N k : Nat)
    (hL : 0 < L) (hw : 0 < w) (hN : (N : Int) ≤ L) (hk : k < N) :
    (∃ lr dr h,
      (RateLimitRun ⟨L, w⟩ now N none).get? k = some lr ∧
      (RedisRateLimitRun ⟨L, w⟩ now N none).get? k = some dr ∧
      dr.headers = some h ∧
      lr.allowed = dr.allowed ∧
      lr.limitHdr = h.limitHdr ∧
      lr.resetHdr = h.resetHdr ∧
      lr.remainingHdr = h.remainingHdr + 1) ∧
    ((RateLimit ⟨L, w⟩ now (some ⟨0, now⟩)).allowed = false ∧
      (RateLimit ⟨L, w⟩ now (some ⟨0, now⟩)).remainingHdr = 0 ∧
      (RedisRateLimit ⟨L, w⟩ now
        (idealResponses ⟨L, w⟩ now (some ⟨0, now + w⟩))).allowed = false ∧
      ∃ hd, (RedisRateLimit ⟨L, w⟩ now
          (idealResponses ⟨L, w⟩ now (some ⟨0, now + w⟩))).headers = some hd ∧
        hd.remainingHdr = 0) := by
  constructor
  · have hlocal : (RateLimitRun ⟨L, w⟩ now N none).get? k =
        some { allowed := true, limitHdr := L, remainingHdr := L - k,
               resetHdr := now + w,
               client := { tokens := L - k - 1, lastRefill := now } } := by
      have hnone : RateLimitRun ⟨L, w⟩ now N none =
          RateLimitRun ⟨L, w⟩ now N (some ⟨L, now⟩) := by
        cases N <;> rfl
      rw [hnone]
      exact RateLimitRun_get L w now hw N L hN k hk
    have hdist : (RedisRateLimitRun ⟨L, w⟩ now N none).get? k =
        some { allowed := true, headers := some ⟨L, L - k - 1, now + w⟩,
               decrIssued := true } := by
      match N, hk with
      | Nm + 1, hk =>
        rw [RedisRateLimitRun_none L w now hL Nm]
        match k with
        | 0 => simp
        | k' + 1 =>
          have hrec := RedisRateLimitRun_get L w now Nm (L - 1) (by push_cast at hN ⊢; omega)
            k' (by omega)
          have hcast : L - 1 - (k' : Int) - 1 = L - ((k' + 1 : Nat) : Int) - 1 := by
            push_cast; ring
          simp only [List.get?_cons_succ]
          rw [hrec, hcast]
    refine ⟨_, _, _, hlocal, hdist, rfl, rfl, rfl, rfl, ?_⟩
    first | ring | (dsimp only; ring)
  · have hloc := RateLimit_inWindow_zero L w now hw
    have hdist : RedisRateLimit ⟨L, w⟩ now
        (idealResponses ⟨L, w⟩ now (some ⟨0, now + w⟩)) =
        { allowed := false,
          headers := some ⟨L, max 0 ((0 : Int) - 1), now + (now + w - now)⟩,
          decrIssued := false } := by
      rw [RedisRateLimit_get_ok ⟨L, w⟩ now _ 0 rfl]
      rw [redisRateLimitTail_deny ⟨L, w⟩ now 0 _ (by omega)]
      rfl
    rw [hloc, hdist]
    refine ⟨rfl, rfl, rfl, _, rfl, ?_⟩
    first | omega | (dsimp only; omega)

/-- C2, witness: the amended comparison evaluated at
`limit = 10, window = 100, now = 0, N = 3, k = 2`. -/
theorem local_distributed_emitted_values_witness :
    (∃ lr dr h,
      (RateLimitRun ⟨10, 100⟩ 0 3 none).get? 2 = some lr ∧
      (RedisRateLimitRun ⟨10, 100⟩ 0 3 none).get? 2 = some dr ∧
      dr.headers = some h ∧
      lr.allowed = dr.allowed ∧
      lr.limitHdr = h.limitHdr ∧
      lr.resetHdr = h.resetHdr ∧
      lr.remainingHdr = h.remainingHdr + 1) ∧
    ((RateLimit ⟨10, 100⟩ 0 (some ⟨0, 0⟩)).allowed = false ∧
      (RateLimit ⟨10, 100⟩ 0 (some ⟨0, 0⟩)).remainingHdr = 0 ∧
      (RedisRateLimit ⟨10, 100⟩ 0
        (idealResponses ⟨10, 100⟩ 0 (some ⟨0, 100⟩))).allowed = false ∧
      ∃ hd, (RedisRateLimit ⟨10, 100⟩ 0
          (idealResponses ⟨10, 100⟩ 0 (some ⟨0, 100⟩))).headers = some hd ∧
        hd.remainingHdr = 0) := by
  have h := local_distributed_emitted_values 10 100 0 3 2
    (by norm_num) (by norm_num) (by norm_num) (by norm_num)
  simpa using h

end FileMeta